import Mathlib

/-!
# gin-cli: repository path validation, configuration loading, `get` and `upload`

A shallow embedding of the Go sources

* `gincmd/getcmd.go`      (`isValidRepoPath`, `getRepo`)
* `gincmd/uploadcmd.go`   (`upload`)
* `ginclient/config/config.go` (`pathExists`, `findreporoot`, `Read`, `Path`)

and of `RequestAccount` of package `auth`, whose test `auth/auth_test.go` is
at hand, together with the statements about them that are settled below.

Conventions.  A Go `string` is a Lean `String`; the separator `"/"` is one
ASCII byte, which in UTF-8 never occurs inside the encoding of another
character, so searching characters and searching bytes agree on it.
Package level variables become an explicit state record, the operating
system and third party libraries become fields of an environment record.
-/

namespace GinCli

/-! ## Package `strings` (Go standard library) -/

namespace strings

/-- Go `strings.HasPrefix(s, prefix)` on character lists. -/
def hasPrefixChars : List Char → List Char → Bool
  | _, [] => true
  | [], _ :: _ => false
  | c :: s, d :: p => c == d && hasPrefixChars s p

/-- Go `strings.Index(s, substr)` by naive search from offset `i`:
the offset of the first occurrence at or after `i`, or `-1`. -/
def indexFrom (substr : List Char) : List Char → Nat → Int
  | [], i => if substr.isEmpty then (i : Int) else -1
  | c :: s, i =>
    if hasPrefixChars (c :: s) substr then (i : Int) else indexFrom substr s (i + 1)

/-- Go `strings.Index(s, substr)`. -/
def Index (s substr : String) : Int :=
  indexFrom substr.data s.data 0

/-- Go `strings.Contains(s, substr)`, which is `Index(s, substr) >= 0`. -/
def Contains (s substr : String) : Bool :=
  decide (Index s substr ≥ 0)

end strings

/-! ## `gincmd/getcmd.go`: `isValidRepoPath` -/

/-- Source: `func isValidRepoPath(path string) bool { return strings.Contains(path, "/") }`. -/
def isValidRepoPath (path : String) : Bool :=
  strings.Contains path "/"

/-- The repository path as documented for `gin get` ("the owner's username,
followed by a "/" and the repository name"): some non-empty owner without
separator, one separator, some non-empty repository name without separator.
This definition follows the documentation's words, it is not taken from the
validation code. -/
def isDocumentedRepoPath (path : String) : Bool :=
  match path.data.span (fun c => c != '/') with
  | (owner, '/' :: name) => !owner.isEmpty && !name.isEmpty && !name.contains '/'
  | _ => false

/-! ## Package `path/filepath` (Go standard library, Unix flavour) -/

/-- A slash separated path: whether it starts at the root, and the texts
between the separators in order.  `"/home/al/data"` is
`⟨true, ["home", "al", "data"]⟩`, `"."` is `⟨false, ["."]⟩`. -/
structure GoPath where
  isAbs : Bool
  segs : List String
deriving DecidableEq, Repr

namespace filepath

/-- Cut a character list at every separator. -/
def splitSep : List Char → List (List Char)
  | [] => [[]]
  | c :: cs =>
    if c = '/' then [] :: splitSep cs
    else
      match splitSep cs with
      | [] => [[c]]
      | seg :: rest => (c :: seg) :: rest

/-- Read a Go path string as a `GoPath`. -/
def ofString (s : String) : GoPath :=
  ⟨strings.hasPrefixChars s.data ['/'], (splitSep s.data).map String.mk⟩

/-- One step of the lexical processing of `filepath.Clean`; `stack` holds the
segments kept so far, last one first. -/
def cleanStep (abs : Bool) (stack : List String) (seg : String) : List String :=
  if seg = "" ∨ seg = "." then stack
  else if seg = ".." then
    match stack with
    | [] => if abs then [] else [".."]
    | top :: rest => if top = ".." then ".." :: top :: rest else rest
  else seg :: stack

/-- Go `filepath.Clean`: drop empty and `.` segments, cancel `..` against the
segment before it, drop `..` at the root.  The cleaned empty relative path
`⟨false, []⟩` is Go's `"."`, the cleaned `⟨true, []⟩` is `"/"`. -/
def Clean (p : GoPath) : GoPath :=
  ⟨p.isAbs, (p.segs.foldl (cleanStep p.isAbs) []).reverse⟩

/-- Go `filepath.Join(a, b)` for a relative second element (its only use in
this package): the elements are put together with a separator and the result
is cleaned. -/
def Join (a b : GoPath) : GoPath :=
  Clean ⟨a.isAbs, a.segs ++ b.segs⟩

/-- Go `filepath.Dir`: drop the last element, then clean. -/
def Dir (p : GoPath) : GoPath :=
  Clean ⟨p.isAbs, p.segs.dropLast⟩

end filepath

/-! ## The world outside the package -/

deriving instance DecidableEq for Except

/-- What `os.Stat` answers for a path: no error, an error for which
`os.IsNotExist` holds, or any other error (permission denied, a path
component that is not a directory, ...). -/
inductive StatResult where
  | found
  | notExist
  | otherError
deriving DecidableEq, Repr

/-- A value in a configuration file or among the defaults. -/
inductive Value where
  | str (s : String)
  | int (n : Int)
  | bool (b : Bool)
  | list (xs : List String)
deriving DecidableEq, Repr

/-- The settings of one configuration file, keys written with dots
(`"bin.git"`, `"annex.minsize"`) the way the package asks for them. -/
abbrev Settings := List (String × Value)

/-- Everything outside package `config` that its functions consult: the
process environment, the file system and the conversions of the `viper`
and `cast` libraries. -/
structure Env where
  /-- Answer of `os.Getenv`, the empty string for a variable that is not set. -/
  Getenv : String → String
  /-- The platform directory `configDirs.QueryFolders(configdir.Global)[0].Path`. -/
  globalConfigDir : String
  /-- Outcome of `os.MkdirAll(path, 0755)`: `none` is the nil error. -/
  MkdirAll : String → Option String
  /-- Outcome of `os.Getwd`: an error, or the segments of the working
  directory, which is an absolute path. -/
  Getwd : Except String (List String)
  /-- Outcome of `os.Stat`. -/
  Stat : GoPath → StatResult
  /-- The file a path leads to when the operating system opens it: a relative
  path is taken from the working directory and links are followed.  A file
  is named by one absolute path chosen for it, whether or not it exists, so
  that two paths lead to the same file exactly when they get the same name;
  `none` when the path cannot be followed. -/
  fileAt : GoPath → Option GoPath
  /-- The settings viper reads from a file, given by its name under `fileAt`;
  `none` when the file is missing or cannot be read or parsed. -/
  readConfigFile : GoPath → Option Settings
  /-- Library conversion `cast.ToString`. -/
  castToString : Value → String
  /-- Library conversion `cast.ToInt`. -/
  castToInt : Value → Int
  /-- Library conversion `cast.ToStringSlice`. -/
  castToStringSlice : Value → List String

namespace filepath

/-- Go `filepath.Abs`: an absolute path is cleaned, a relative one is joined
to the working directory, and a failing `os.Getwd` is passed on. -/
def Abs (env : Env) (path : GoPath) : Except String GoPath :=
  if path.isAbs then .ok (Clean path)
  else
    match env.Getwd with
    | .error e => .error e
    | .ok wd => .ok (Join ⟨true, wd⟩ path)

end filepath

/-- What reading the configuration file at `path` gives: the settings of the
file the path leads to. -/
def openConfigFile (env : Env) (path : GoPath) : Option Settings :=
  match env.fileAt path with
  | none => none
  | some file => env.readConfigFile file

/-! ## `ginclient/config/config.go` -/

namespace config

/-- The Bin part of `GinConfiguration`. -/
structure BinConfiguration where
  Git : String
  GitAnnex : String
  SSH : String
deriving DecidableEq, Repr

/-- The Annex part of `GinConfiguration`. -/
structure AnnexConfiguration where
  Exclude : List String
  MinSize : String
deriving DecidableEq, Repr

/-- Source: `type GinConfiguration struct`. -/
structure GinConfiguration where
  GinHost : String
  GitHost : String
  GitUser : String
  GitHostKey : String
  Bin : BinConfiguration
  Annex : AnnexConfiguration
deriving DecidableEq, Repr

/-- The Go zero value of `GinConfiguration`. -/
def GinConfiguration.zero : GinConfiguration :=
  ⟨"", "", "", "", ⟨"", "", ""⟩, ⟨[], ""⟩⟩

/-- Source: `pathExists`: false exactly when `os.Stat` fails with an error
for which `os.IsNotExist` holds. -/
def pathExists (env : Env) (path : GoPath) : Bool :=
  match env.Stat path with
  | .notExist => false
  | _ => true

/-- Source: `findreporoot`, with the depth of the recursion bounded by
`fuel`; `none` means the bound was reached. -/
def findreporootFuel (env : Env) : Nat → GoPath → Option (Except String GoPath)
  | 0, _ => none
  | fuel + 1, path =>
    match filepath.Abs env path with
    | .error err => some (.error err)
    | .ok path =>
      let gitdir := filepath.Join path ⟨false, [".git"]⟩
      if pathExists env gitdir then some (.ok path)
      else
        let updir := filepath.Dir path
        if updir = path then
          -- root reached
          some (.error "Not a repository")
        else findreporootFuel env fuel updir

/-- A recursion depth that suffices for `findreporoot` on `path`: one call
for each segment of the absolute path and one for the root. -/
def findreporootDepth (env : Env) (path : GoPath) : Nat :=
  match filepath.Abs env path with
  | .error _ => 1
  | .ok p => p.segs.length + 1

/-- Source: `findreporoot`: the recursion run to the depth
`findreporootDepth`.  That depth is never exhausted (`findreporootFuel_eq`
below), so the last branch is never taken. -/
def findreporoot (env : Env) (path : GoPath) : Except String GoPath :=
  match findreporootFuel env (findreporootDepth env path) path with
  | some r => r
  | none => .error "recursion bound reached"

/-- Source: `Path`.  The result is the pair of the returned string and the
returned error (`none` is nil). -/
def Path (env : Env) (create : Bool) : String × Option String :=
  let confpath := env.Getenv "GIN_CONFIG_DIR"
  let confpath := if confpath = "" then env.globalConfigDir else confpath
  if create then
    match env.MkdirAll confpath with
    | some _ => ("", some ("could not create config directory " ++ confpath))
    | none => (confpath, none)
  else (confpath, none)

end config

/-! ## Library `viper`, as far as `config.Read` uses it -/

/-- The registry of the viper library: defaults, merged configuration, and
the configuration file that the next merge reads. -/
structure Viper where
  defaults : Settings
  merged : Settings
  configFile : Option GoPath

namespace Viper

/-- State after `viper.Reset()`. -/
def Reset : Viper := ⟨[], [], none⟩

/-- Library call `viper.SetDefault(key, value)`. -/
def SetDefault (v : Viper) (key : String) (value : Value) : Viper :=
  { v with defaults := (key, value) :: v.defaults }

/-- Library call `viper.SetConfigFile(path)`. -/
def SetConfigFile (v : Viper) (path : GoPath) : Viper :=
  { v with configFile := some path }

/-- Library call `viper.MergeInConfig()`: on success the settings of the file
take precedence over what was merged before; on failure nothing changes and
the error is returned. -/
def MergeInConfig (env : Env) (v : Viper) : Viper × Option String :=
  match v.configFile with
  | none => (v, some "no config file set")
  | some file =>
    match openConfigFile env file with
    | none => (v, some "config file cannot be read")
    | some settings => ({ v with merged := settings ++ v.merged }, none)

/-- Library call `viper.Get(key)` with `SetTypeByDefaultValue(true)`: a merged
value wins over a default, and a value whose default is a string is
converted to a string. -/
def Get (env : Env) (v : Viper) (key : String) : Option Value :=
  match v.merged.lookup key, v.defaults.lookup key with
  | some val, some (.str _) => some (.str (env.castToString val))
  | some val, _ => some val
  | none, dflt => dflt

/-- Library call `viper.GetString(key)`. -/
def GetString (env : Env) (v : Viper) (key : String) : String :=
  match v.Get env key with
  | none => ""
  | some val => env.castToString val

/-- Library call `viper.GetInt(key)`. -/
def GetInt (env : Env) (v : Viper) (key : String) : Int :=
  match v.Get env key with
  | none => 0
  | some val => env.castToInt val

/-- Library call `viper.GetStringSlice(key)`. -/
def GetStringSlice (env : Env) (v : Viper) (key : String) : List String :=
  match v.Get env key with
  | none => []
  | some val => env.castToStringSlice val

end Viper

namespace config

/-- The package level variables `configuration` and `set` (the local
configuration cache). -/
structure ConfigState where
  configuration : GinConfiguration
  set : Bool
deriving DecidableEq, Repr

/-- The package state at program start: `var configuration GinConfiguration`,
`var set = false`. -/
def ConfigState.init : ConfigState := ⟨GinConfiguration.zero, false⟩

/-- The host key default of `Read`. -/
def defaultHostKey : String :=
  "gin.g-node.org,141.84.41.216 ecdsa-sha2-nistp256 AAAAE2VjZHNhLXNoYTItbmlzdHAyNTYAAAAIbmlzdHAyNTYAAABBBE5IBgKP3nUryEFaACwY4N3jlqDx8Qw1xAxU2Xpt5V0p9RNefNnedVmnIBV6lA3n+9kT1OSbyqA/+SgsQ57nHo0="

/-- The name `configFileName` of `Read`. -/
def configFileName : String := "config.yml"

/-- The path `filepath.Join(confpath, configFileName)` of the user
configuration file that `Read` merges first, as it is given to viper; it is
relative when the configuration directory is. -/
def userConfigFile (env : Env) : GoPath :=
  filepath.Join (filepath.ofString (Path env false).1) (filepath.ofString configFileName)

/-- The file that is opened for the user configuration: the one the path
`userConfigFile` leads to. -/
def userConfigFileOpened (env : Env) : Option GoPath :=
  env.fileAt (userConfigFile env)

/-- Source: `Read`.  Returns the configuration and the new package state. -/
def Read (env : Env) (st : ConfigState) : GinConfiguration × ConfigState :=
  if st.set then (st.configuration, st)
  else
    let v := Viper.Reset
    -- Binaries
    let v := v.SetDefault "bin.git" (.str "git")
    let v := v.SetDefault "bin.gitannex" (.str "git-annex")
    let v := v.SetDefault "bin.ssh" (.str "ssh")
    -- Hosts
    let v := v.SetDefault "gin.address" (.str "https://web.gin.g-node.org")
    let v := v.SetDefault "gin.port" (.str "443")
    let v := v.SetDefault "git.address" (.str "gin.g-node.org")
    let v := v.SetDefault "git.port" (.str "22")
    let v := v.SetDefault "git.user" (.str "git")
    let v := v.SetDefault "git.hostkey" (.str defaultHostKey)
    -- annex filters
    let v := v.SetDefault "annex.minsize" (.str "10M")
    -- Merge in user config file
    let v := v.SetConfigFile (userConfigFile env)
    let v := (v.MergeInConfig env).1
    let configuration := st.configuration
    let configuration := { configuration with Bin := { configuration.Bin with Git := v.GetString env "bin.git" } }
    let configuration := { configuration with Bin := { configuration.Bin with GitAnnex := v.GetString env "bin.gitannex" } }
    let configuration := { configuration with Bin := { configuration.Bin with SSH := v.GetString env "bin.ssh" } }
    let ginAddress := v.GetString env "gin.address"
    let ginPort := v.GetInt env "gin.port"
    let configuration := { configuration with GinHost := ginAddress ++ ":" ++ toString ginPort }
    let gitAddress := v.GetString env "git.address"
    let gitPort := v.GetInt env "git.port"
    let configuration := { configuration with GitHost := gitAddress ++ ":" ++ toString gitPort }
    let configuration := { configuration with GitUser := v.GetString env "git.user" }
    let configuration := { configuration with GitHostKey := v.GetString env "git.hostkey" }
    -- configuration file in the repository root (annex excludes and size threshold only)
    let v :=
      match findreporoot env (filepath.ofString ".") with
      | .ok reporoot =>
        let confpath := filepath.Join reporoot (filepath.ofString configFileName)
        let v := v.SetConfigFile confpath
        (v.MergeInConfig env).1
      | .error _ => v
    let configuration := { configuration with Annex := { configuration.Annex with Exclude := v.GetStringSlice env "annex.exclude" } }
    let configuration := { configuration with Annex := { configuration.Annex with MinSize := v.GetString env "annex.minsize" } }
    (configuration, ⟨configuration, true⟩)

end config

/-! ## Package `gincmd`: the commands `get` and `upload` -/

namespace gincmd

/-- What a command does that can be observed from outside, in the order in
which it happens. -/
inductive Event where
  /-- The call `config.Read()`. -/
  | configRead
  /-- The call `ginclient.New(host)`. -/
  | newClient (host : String)
  /-- The call `requirelogin(cmd, gincl, prompt)`. -/
  | requirelogin (prompt : Bool)
  /-- The call `commit(cmd, paths)`. -/
  | commit (paths : List String)
  /-- The statement `make(chan git.RepoFileStatus)`. -/
  | makeChan
  /-- The statement `go gincl.CloneRepo(repostr, clonechan)`, with the git host
  and git user set on the client. -/
  | goCloneRepo (gitHost gitUser : String) (repostr : String)
  /-- The statement `go gincl.Upload(paths, uploadchan)`, with the git host and
  git user set on the client. -/
  | goUpload (gitHost gitUser : String) (paths : List String)
  /-- The call `formatOutput(chan, 0, jsonout)`. -/
  | formatOutput (jsonout : Bool)
  /-- The call `git.CommitIfNew(remote)`. -/
  | CommitIfNew (remote : String)
deriving DecidableEq, Repr

/-- The event is a commit step or the start of `Upload`. -/
def Event.isCommitOrUpload : Event → Bool
  | .commit _ => true
  | .goUpload _ _ _ => true
  | _ => false

/-- How a command ends: it returns, the process is ended by `Die` with a
message, or the Go runtime panics. -/
inductive Outcome where
  | returned
  | died (msg : String)
  | panicked (msg : String)
deriving DecidableEq, Repr

/-- One run of a command: the events in order and the way it ended. -/
structure Run where
  trace : List Event
  outcome : Outcome
deriving DecidableEq, Repr

/-- The parts of the program and its surroundings a command run depends on.
The functions `requirelogin`, `commit`, `formatOutput`, `Die` and `CheckError`
of package `gincmd` and the packages `git` and `ginclient` are not part of the
sources at hand; each is taken as given, by whether it returns or ends the
process through `Die`. -/
structure World where
  /-- The environment `config.Read` works in. -/
  env : Env
  /-- The package state of `config` when the command starts. -/
  configState : config.ConfigState
  /-- The value of the flag `--json`. -/
  jsonout : Bool
  /-- The call `requirelogin(cmd, gincl, prompt)` on a client for `host`:
  `none` when it returns, `some msg` when it ends the process with `msg`. -/
  requirelogin : (host : String) → (prompt : Bool) → Option String
  /-- Answer of `git.IsRepo()`. -/
  IsRepo : Bool
  /-- The call `commit(cmd, paths)`: `none` when it returns, `some msg` when it
  ends the process with `msg`. -/
  commit : List String → Option String
  /-- The call `formatOutput(chan, 0, jsonout)`: `none` when it returns,
  `some msg` when it ends the process with `msg`. -/
  formatOutput : Option String
  /-- The error returned by `git.CommitIfNew(remote)`, `none` for nil. -/
  CommitIfNew : String → Option String

/-- The message of `getRepo` for a path that fails validation. -/
def invalidRepoPathMessage (repostr : String) : String :=
  "Invalid repository path '" ++ repostr ++
    "'. Full repository name should be the owner's username followed by the repository name, separated by a '/'.\nType 'gin help get' for information and examples."

/-- The message of `upload` outside a repository. -/
def notInRepoMessage : String :=
  "This command must be run from inside a gin repository."

/-- Source: `getRepo`.  `Die(msg)` ends the run with `Outcome.died msg`,
`CheckError(err)` does so for a non-nil `err`. -/
def getRepo (w : World) (args : List String) : Run :=
  let jsonout := w.jsonout
  match args with
  | [] => ⟨[], .panicked "index out of range [0] with length 0"⟩
  | repostr :: _ =>
    let conf := (config.Read w.env w.configState).1
    let trace := [Event.configRead, Event.newClient conf.GinHost, Event.requirelogin (!jsonout)]
    match w.requirelogin conf.GinHost (!jsonout) with
    | some msg => ⟨trace, .died msg⟩
    | none =>
      if !isValidRepoPath repostr then ⟨trace, .died (invalidRepoPathMessage repostr)⟩
      else
        let trace := trace ++
          [Event.makeChan, Event.goCloneRepo conf.GitHost conf.GitUser repostr, Event.formatOutput jsonout]
        match w.formatOutput with
        | some msg => ⟨trace, .died msg⟩
        | none =>
          let trace := trace ++ [Event.CommitIfNew "origin"]
          match w.CommitIfNew "origin" with
          | some err => ⟨trace, .died err⟩
          | none => ⟨trace, .returned⟩

/-- Source: `upload`. -/
def upload (w : World) (args : List String) : Run :=
  let jsonout := w.jsonout
  let conf := (config.Read w.env w.configState).1
  let trace := [Event.configRead, Event.newClient conf.GinHost, Event.requirelogin (!jsonout)]
  match w.requirelogin conf.GinHost (!jsonout) with
  | some msg => ⟨trace, .died msg⟩
  | none =>
    if !w.IsRepo then ⟨trace, .died notInRepoMessage⟩
    else
      let paths := args
      let afterCommit : List Event × Option String :=
        if paths.length > 0 then (trace ++ [Event.commit paths], w.commit paths)
        else (trace, none)
      match afterCommit with
      | (trace, some msg) => ⟨trace, .died msg⟩
      | (trace, none) =>
        let trace := trace ++
          [Event.makeChan, Event.goUpload conf.GitHost conf.GitUser paths, Event.formatOutput jsonout]
        match w.formatOutput with
        | some msg => ⟨trace, .died msg⟩
        | none => ⟨trace, .returned⟩

end gincmd

/-! ## Package `auth`: `RequestAccount` -/

namespace auth

/-- The optional affiliation of an account. -/
structure Affiliation where
  Institute : String
  Department : String
  City : String
  Country : String
  IsPublic : Bool
deriving DecidableEq, Repr

/-- The account record: identity, optional title, middle name and
affiliation, and the two timestamps. -/
structure Account where
  UUID : String
  Login : String
  Title : Option String
  FirstName : String
  MiddleName : Option String
  LastName : String
  Affiliation : Option Affiliation
  CreatedAt : String
  UpdatedAt : String
deriving DecidableEq, Repr

/-- The zero value of `Account` (`var emptyAcc gin.Account` in the test). -/
def Account.zero : Account :=
  ⟨"", "", none, "", none, "", none, "", ""⟩

/-- The error kinds of the account client. -/
inductive ErrorKind where
  | ConnectionError
  | NotFound
  | RequestFailed
  | InvalidResponse
deriving DecidableEq, Repr

/-- Answer of the transport to one request: no connection, or a response with
status code and body. -/
inductive HttpResult where
  | unreachable
  | response (status : Nat) (body : String)
deriving DecidableEq, Repr

/-- The client made by `NewClient(baseURL)` together with what it talks to:
the transport that answers a GET for a URL, and the decoder of an account
record. -/
structure Client where
  baseURL : String
  httpGet : String → HttpResult
  decodeAccount : String → Option Account

/-- Modelled from the spec: `RequestAccount` of the account client (package
`auth`; only its test `auth_test.go` is among the sources).  It issues
`GET {base}/api/accounts/{login}`; an empty base URL or an unreachable host
gives a connection error, status 404 gives not-found, any other status
outside 200..299 gives request-failed, a body that cannot be decoded gives
invalid-response, and every error comes with the zero account. -/
def RequestAccount (cl : Client) (login : String) : Account × Option ErrorKind :=
  if cl.baseURL = "" then (Account.zero, some .ConnectionError)
  else
    match cl.httpGet (cl.baseURL ++ "/api/accounts/" ++ login) with
    | .unreachable => (Account.zero, some .ConnectionError)
    | .response status body =>
      if status = 404 then (Account.zero, some .NotFound)
      else if status < 200 ∨ 300 ≤ status then (Account.zero, some .RequestFailed)
      else
        match cl.decodeAccount body with
        | none => (Account.zero, some .InvalidResponse)
        | some acc => (acc, none)

/-- The request for `login` fails: the base URL is empty, the host cannot be
reached, or the status is not a success status. -/
def requestFails (cl : Client) (login : String) : Bool :=
  cl.baseURL == "" ||
    match cl.httpGet (cl.baseURL ++ "/api/accounts/" ++ login) with
    | .unreachable => true
    | .response status _ => decide (status < 200 ∨ 300 ≤ status)

end auth

/-! ## Reference notions the statements are written with -/

namespace config

/-- The directory and its ancestors, nearest first and the root last: the
paths whose segments are an initial part of the segments of `p`. -/
def ancestors (p : GoPath) : List GoPath :=
  p.segs.inits.reverse.map (GoPath.mk p.isAbs)

/-- The path of the entry `.git` of directory `d`. -/
def gitEntry (d : GoPath) : GoPath :=
  ⟨d.isAbs, d.segs ++ [".git"]⟩

/-- Directory `d` contains an entry `.git`: `os.Stat` finds it. -/
def containsGit (env : Env) (d : GoPath) : Bool :=
  decide (env.Stat (gitEntry d) = .found)

/-- The nearest directory among `p` and its ancestors that contains an entry
`.git`, if there is one. -/
def nearestRepoDir (env : Env) (p : GoPath) : Option GoPath :=
  (ancestors p).find? (containsGit env)

/-- The fields of a configuration other than the annex settings. -/
def nonAnnexFields (c : GinConfiguration) :
    String × String × String × String × String × String × String :=
  (c.Bin.Git, c.Bin.GitAnnex, c.Bin.SSH, c.GinHost, c.GitHost, c.GitUser, c.GitHostKey)

/-- The environment in which the file named `file` reads as `content`
(`none`: no such file) and everything else is as in `env`.  Every path that
leads to that file, a relative one or one through a link among them, then
reads as `content`. -/
def withConfigFile (env : Env) (file : GoPath) (content : Option Settings) : Env :=
  { env with readConfigFile := fun q => if q = file then content else env.readConfigFile q }

/-- The path `filepath.Join(reporoot, configFileName)` of the configuration
file in the repository root. -/
def repoConfigFile (reporoot : GoPath) : GoPath :=
  filepath.Join reporoot (filepath.ofString configFileName)

/-- The file that is opened for the configuration in the repository root:
the one the path `repoConfigFile reporoot` leads to. -/
def repoConfigFileOpened (env : Env) (reporoot : GoPath) : Option GoPath :=
  env.fileAt (repoConfigFile reporoot)

end config

/-! ## Cleaned paths -/

namespace filepath

/-- A segment that `Clean` keeps as it is. -/
def plainSeg (s : String) : Prop := s ≠ "" ∧ s ≠ "." ∧ s ≠ ".."

/-- A cleaned absolute path. -/
def CleanAbs (p : GoPath) : Prop := p.isAbs = true ∧ ∀ s ∈ p.segs, plainSeg s

end filepath

namespace config

/-- The answer of the upward search from a cleaned absolute path `p`, written
with `pathExists`: the first of `p` and its ancestors whose `.git` path
`pathExists` accepts. -/
def searchUp (env : Env) (p : GoPath) : Except String GoPath :=
  match (ancestors p).find? (fun d => pathExists env (gitEntry d)) with
  | some d => .ok d
  | none => .error "Not a repository"

end config

/-! ## Concrete environments, used to evaluate the definitions -/

namespace Sample

/-- A conversion to strings for the sample environments. -/
def castToString : Value → String
  | .str s => s
  | .int n => toString n
  | .bool b => toString b
  | .list _ => ""

/-- A conversion to integers for the sample environments; it knows the two
port numbers of the defaults. -/
def castToInt : Value → Int
  | .int n => n
  | .str s => if s = "443" then 443 else if s = "22" then 22 else 0
  | _ => 0

/-- A conversion to string lists for the sample environments. -/
def castToStringSlice : Value → List String
  | .list xs => xs
  | _ => []

/-- A file system without links: a path leads to the file at its cleaned
absolute path, a relative path being taken from the working directory `wd`
(`none`: there is no working directory). -/
def fileFrom (wd : Option (List String)) (p : GoPath) : Option GoPath :=
  if p.isAbs then some (filepath.Clean p)
  else
    match wd with
    | none => none
    | some dir => some (filepath.Join ⟨true, dir⟩ p)

/-- A user working in `/home/al/proj/data`, where `/home/al/proj` is a
repository; no configuration file anywhere, `GIN_CONFIG_DIR` not set. -/
def homeEnv : Env where
  Getenv := fun _ => ""
  globalConfigDir := "/home/al/.config/g-node/gin"
  MkdirAll := fun _ => none
  Getwd := .ok ["home", "al", "proj", "data"]
  Stat := fun p => if p = ⟨true, ["home", "al", "proj", ".git"]⟩ then .found else .notExist
  fileAt := fileFrom (some ["home", "al", "proj", "data"])
  readConfigFile := fun _ => none
  castToString := castToString
  castToInt := castToInt
  castToStringSlice := castToStringSlice

/-- As `homeEnv`, with `GIN_CONFIG_DIR` set to `/srv/gin` and a file system on
which that directory cannot be created. -/
def readOnlyEnv : Env :=
  { homeEnv with
    Getenv := fun k => if k = "GIN_CONFIG_DIR" then "/srv/gin" else ""
    MkdirAll := fun _ => some "mkdir /srv/gin: read-only file system" }

/-- A user working in the repository `/repo` with `GIN_CONFIG_DIR` set to
`/repo` as well. -/
def sharedDirEnv : Env where
  Getenv := fun k => if k = "GIN_CONFIG_DIR" then "/repo" else ""
  globalConfigDir := "/home/al/.config/g-node/gin"
  MkdirAll := fun _ => none
  Getwd := .ok ["repo"]
  Stat := fun p => if p = ⟨true, ["repo", ".git"]⟩ then .found else .notExist
  fileAt := fileFrom (some ["repo"])
  readConfigFile := fun _ => none
  castToString := castToString
  castToInt := castToInt
  castToStringSlice := castToStringSlice

/-- A user working in the repository `/repo` with `GIN_CONFIG_DIR` set to
`.`, the working directory. -/
def dotDirEnv : Env :=
  { sharedDirEnv with Getenv := fun k => if k = "GIN_CONFIG_DIR" then "." else "" }

/-- A process whose working directory has been removed: `os.Getwd` fails. -/
def removedCwdEnv : Env :=
  { homeEnv with
    Getwd := .error "getwd: no such file or directory"
    fileAt := fileFrom none }

/-- A file system on which `/home/al/notes.txt` is a regular file, so that
`os.Stat` of `/home/al/notes.txt/.git` fails with "not a directory", and on
which no `.git` entry exists. -/
def plainFileEnv : Env :=
  { homeEnv with
    Stat := fun p =>
      if p = ⟨true, ["home", "al", "notes.txt", ".git"]⟩ then .otherError else .notExist }

/-- Settings of a configuration file that names another git binary. -/
def otherGit : Settings := [("bin.git", .str "/opt/git/bin/git")]

/-- Settings of a repository configuration file. -/
def annexSettings : Settings :=
  [("annex.minsize", .str "50M"), ("annex.exclude", .list ["*.md", "*.py"]), ("bin.git", .str "/opt/git/bin/git")]

/-- A logged in user inside a repository; every helper returns. -/
def loggedInWorld : gincmd.World where
  env := homeEnv
  configState := config.ConfigState.init
  jsonout := false
  requirelogin := fun _ _ => none
  IsRepo := true
  commit := fun _ => none
  formatOutput := none
  CommitIfNew := fun _ => none

/-- A user without a session, outside a repository, asking for JSON output:
`requirelogin` ends the process. -/
def loggedOutWorld : gincmd.World :=
  { loggedInWorld with
    jsonout := true
    requirelogin := fun _ _ => some "This command requires login."
    IsRepo := false }

/-- A logged in user outside a repository. -/
def outsideRepoWorld : gincmd.World :=
  { loggedInWorld with IsRepo := false }

/-- The test server of `auth_test.go`: account `alice` exists, every other
path answers 404. -/
def testServer : auth.Client where
  baseURL := "http://127.0.0.1:8080"
  httpGet := fun url =>
    if url = "http://127.0.0.1:8080/api/accounts/alice" then .response 200 "alice" else .response 404 ""
  decodeAccount := fun body =>
    if body = "alice" then
      some ⟨"alice_test_uuid", "alice", none, "Alice", none, "Goodwill", none,
        "2016-11-10T12:26:04.57208Z", "2016-11-10T12:26:04.57208+01:00"⟩
    else none

end Sample

/-! # Proofs -/

/-! ### Lemmas on substring search -/

theorem strings.indexFrom_slash (s : List Char) (i : Nat) :
    0 ≤ strings.indexFrom ['/'] s i ↔ '/' ∈ s := by
  induction s generalizing i with
  | nil => simp [strings.indexFrom]
  | cons c s ih =>
    unfold strings.indexFrom
    by_cases hc : c = '/'
    · subst hc
      simp [strings.hasPrefixChars]
    · have hne : (c == '/') = false := by simpa using hc
      have hne2 : ¬ ('/' = c) := fun h => hc h.symm
      simp [strings.hasPrefixChars, hne, ih (i + 1), hne2]

theorem isValidRepoPath_iff_mem (s : String) :
    isValidRepoPath s = true ↔ '/' ∈ s.data := by
  unfold isValidRepoPath strings.Contains strings.Index
  simp only [decide_eq_true_eq, ge_iff_le]
  exact strings.indexFrom_slash s.data 0

/-! ## Lemmas on paths -/

namespace filepath

theorem cleanStep_plain (abs : Bool) (stack : List String) (s : String) (h : plainSeg s) :
    cleanStep abs stack s = s :: stack := by
  obtain ⟨h1, h2, h3⟩ := h
  simp [cleanStep, h1, h2, h3]

theorem foldl_cleanStep_plain (abs : Bool) :
    ∀ (xs stack : List String), (∀ s ∈ xs, plainSeg s) →
      xs.foldl (cleanStep abs) stack = xs.reverse ++ stack := by
  intro xs
  induction xs with
  | nil => intro stack _; simp
  | cons x xs ih =>
    intro stack h
    have hx : plainSeg x := h x (List.mem_cons_self _ _)
    have hxs : ∀ s ∈ xs, plainSeg s := fun s hs => h s (List.mem_cons_of_mem _ hs)
    simp [List.foldl_cons, cleanStep_plain abs stack x hx, ih (x :: stack) hxs]

theorem cleanStep_abs_plain (stack : List String) (seg : String)
    (h : ∀ s ∈ stack, plainSeg s) : ∀ s ∈ cleanStep true stack seg, plainSeg s := by
  unfold cleanStep
  split
  · exact h
  · rename_i h1
    split
    · cases stack with
      | nil => simp
      | cons top rest =>
        have htop : top ≠ ".." := (h top (List.mem_cons_self _ _)).2.2
        simp only [htop, if_false]
        intro s hs
        exact h s (List.mem_cons_of_mem _ hs)
    · rename_i h2
      intro s hs
      rcases List.mem_cons.mp hs with rfl | hs
      · refine ⟨?_, ?_, h2⟩
        · intro h0; exact h1 (Or.inl h0)
        · intro h0; exact h1 (Or.inr h0)
      · exact h s hs

theorem foldl_cleanStep_abs_plain :
    ∀ (xs stack : List String), (∀ s ∈ stack, plainSeg s) →
      ∀ s ∈ xs.foldl (cleanStep true) stack, plainSeg s := by
  intro xs
  induction xs with
  | nil => intro stack h; simpa using h
  | cons x xs ih =>
    intro stack h
    simp only [List.foldl_cons]
    exact ih _ (cleanStep_abs_plain stack x h)

theorem Clean_cleanAbs (p : GoPath) (h : p.isAbs = true) : CleanAbs (Clean p) := by
  refine ⟨h, ?_⟩
  intro s hs
  simp only [Clean, h, List.mem_reverse] at hs
  exact foldl_cleanStep_abs_plain p.segs [] (by simp) s hs

theorem Clean_eq_self (p : GoPath) (h : CleanAbs p) : Clean p = p := by
  obtain ⟨_, h2⟩ := h
  cases p with
  | mk a segs =>
    simp only [Clean, foldl_cleanStep_plain a segs [] h2]
    simp

theorem Abs_cleanAbs (env : Env) (path p : GoPath) (h : Abs env path = .ok p) : CleanAbs p := by
  unfold Abs at h
  split at h
  · rename_i habs
    cases h
    exact Clean_cleanAbs path habs
  · split at h
    · cases h
    · cases h
      exact Clean_cleanAbs _ rfl

theorem Abs_eq_self (env : Env) (p : GoPath) (h : CleanAbs p) : Abs env p = .ok p := by
  unfold Abs
  simp [h.1, Clean_eq_self p h]

theorem Join_git (p : GoPath) (h : CleanAbs p) :
    Join p ⟨false, [".git"]⟩ = ⟨true, p.segs ++ [".git"]⟩ := by
  have hc : CleanAbs ⟨p.isAbs, p.segs ++ [".git"]⟩ := by
    refine ⟨h.1, ?_⟩
    intro s hs
    rcases List.mem_append.mp hs with hs | hs
    · exact h.2 s hs
    · simp only [List.mem_singleton] at hs
      subst hs
      exact ⟨by decide, by decide, by decide⟩
  unfold Join
  rw [Clean_eq_self _ hc, h.1]

theorem Dir_eq (p : GoPath) (h : CleanAbs p) : Dir p = ⟨true, p.segs.dropLast⟩ := by
  have hc : CleanAbs ⟨p.isAbs, p.segs.dropLast⟩ :=
    ⟨h.1, fun s hs => h.2 s (List.mem_of_mem_dropLast hs)⟩
  unfold Dir
  rw [Clean_eq_self _ hc, h.1]

theorem Dir_cleanAbs (p : GoPath) (h : CleanAbs p) : CleanAbs (Dir p) := by
  rw [Dir_eq p h]
  exact ⟨rfl, fun s hs => h.2 s (List.mem_of_mem_dropLast hs)⟩

end filepath

namespace config
open filepath

theorem ancestors_root (abs : Bool) : ancestors ⟨abs, []⟩ = [⟨abs, []⟩] := by
  simp [ancestors]

theorem ancestors_snoc (abs : Bool) (l : List String) (a : String) :
    ancestors ⟨abs, l ++ [a]⟩ = ⟨abs, l ++ [a]⟩ :: ancestors ⟨abs, l⟩ := by
  simp [ancestors, List.inits_append]

theorem findreporootFuel_cleanAbs (env : Env) (segs : List String) :
    ∀ (fuel : Nat), segs.length + 1 ≤ fuel → CleanAbs ⟨true, segs⟩ →
      findreporootFuel env fuel ⟨true, segs⟩ = some (searchUp env ⟨true, segs⟩) := by
  induction segs using List.reverseRecOn with
  | nil =>
    intro fuel hfuel hc
    obtain ⟨k, rfl⟩ : ∃ k, fuel = k + 1 := ⟨fuel - 1, by omega⟩
    unfold findreporootFuel
    simp only [Abs_eq_self env _ hc, Join_git _ hc, Dir_eq _ hc, searchUp, ancestors_root,
      List.find?_cons, List.find?_nil, gitEntry, List.dropLast_nil, if_true]
    split_ifs with hp
    · simp at hp; simp [hp]
    · simp at hp; simp [hp]
  | append_singleton l a ih =>
    intro fuel hfuel hc
    obtain ⟨k, rfl⟩ : ∃ k, fuel = k + 1 := ⟨fuel - 1, by omega⟩
    have hk : l.length + 1 ≤ k := by
      simp only [List.length_append, List.length_singleton] at hfuel
      omega
    have hcl : CleanAbs ⟨true, l⟩ :=
      ⟨rfl, fun s hs => hc.2 s (List.mem_append_left _ hs)⟩
    have hne : (⟨true, l⟩ : GoPath) ≠ ⟨true, l ++ [a]⟩ := by
      intro h
      have := congrArg (fun p => p.segs.length) h
      simp at this
    unfold findreporootFuel
    simp only [Abs_eq_self env _ hc, Join_git _ hc, Dir_eq _ hc, searchUp, ancestors_snoc,
      List.find?_cons, gitEntry, List.dropLast_concat, hne, if_false]
    split_ifs with hp
    · simp at hp; simp [hp]
    · simp at hp
      rw [ih k hk hcl]
      simp [hp, searchUp, gitEntry]

theorem findreporootFuel_of_abs (env : Env) (path p : GoPath)
    (h : Abs env path = .ok p) (fuel : Nat) :
    findreporootFuel env (fuel + 1) path = findreporootFuel env (fuel + 1) p := by
  have hc := Abs_cleanAbs env path p h
  conv_lhs => unfold findreporootFuel
  conv_rhs => unfold findreporootFuel
  simp only [h, Abs_eq_self env p hc]

theorem findreporootFuel_error (env : Env) (path : GoPath) (e : String)
    (h : Abs env path = .error e) (fuel : Nat) :
    findreporootFuel env (fuel + 1) path = some (.error e) := by
  unfold findreporootFuel
  simp only [h]

/-- With enough fuel the bounded recursion gives the answer of `findreporoot`. -/
theorem findreporootFuel_eq (env : Env) (path : GoPath) (fuel : Nat)
    (hfuel : findreporootDepth env path ≤ fuel) :
    findreporootFuel env fuel path = some (findreporoot env path) ∧
    findreporoot env path =
      (match Abs env path with
       | .error e => .error e
       | .ok p => searchUp env p) := by
  have key : ∀ fuel, findreporootDepth env path ≤ fuel →
      findreporootFuel env fuel path =
        some (match Abs env path with
              | .error e => .error e
              | .ok p => searchUp env p) := by
    intro fuel hfuel
    cases hA : Abs env path with
    | error e =>
      simp only [findreporootDepth, hA] at hfuel
      obtain ⟨k, rfl⟩ : ∃ k, fuel = k + 1 := ⟨fuel - 1, by omega⟩
      exact findreporootFuel_error env path e hA k
    | ok p =>
      simp only [findreporootDepth, hA] at hfuel
      obtain ⟨k, rfl⟩ : ∃ k, fuel = k + 1 := ⟨fuel - 1, by omega⟩
      have hc := Abs_cleanAbs env path p hA
      rw [findreporootFuel_of_abs env path p hA k]
      have hp : p = ⟨true, p.segs⟩ := by
        cases p with
        | mk a s => simp only [GoPath.mk.injEq, and_true]; exact hc.1
      rw [hp] at hc ⊢
      exact findreporootFuel_cleanAbs env p.segs (k + 1) hfuel hc
  have h0 := key (findreporootDepth env path) (le_refl _)
  have hfr : findreporoot env path =
      (match Abs env path with
       | .error e => .error e
       | .ok p => searchUp env p) := by
    unfold findreporoot
    rw [h0]
  exact ⟨by rw [key fuel hfuel, hfr], hfr⟩

end config

open config gincmd auth

/-! ## Lemmas on `Read` -/

theorem find?_congr_mem {α : Type} (f g : α → Bool) :
    ∀ (l : List α), (∀ d ∈ l, f d = g d) → l.find? f = l.find? g := by
  intro l
  induction l with
  | nil => intro _; rfl
  | cons x xs ih =>
    intro h
    have hx := h x (List.mem_cons_self _ _)
    have hxs := ih (fun d hd => h d (List.mem_cons_of_mem _ hd))
    simp [List.find?_cons, hx, hxs]

theorem pathExists_eq_containsGit (env : Env) (d : GoPath)
    (h : env.Stat (gitEntry d) ≠ .otherError) :
    pathExists env (gitEntry d) = containsGit env d := by
  unfold pathExists containsGit
  cases hs : env.Stat (gitEntry d) with
  | found => simp
  | notExist => simp
  | otherError => exact absurd hs h

theorem searchUp_eq_nearest (env : Env) (p : GoPath)
    (h : ∀ d ∈ ancestors p, env.Stat (gitEntry d) ≠ .otherError) :
    searchUp env p =
      match nearestRepoDir env p with
      | some d => .ok d
      | none => .error "Not a repository" := by
  unfold searchUp nearestRepoDir
  rw [find?_congr_mem _ (containsGit env) (ancestors p)
    (fun d hd => pathExists_eq_containsGit env d (h d hd))]

theorem Read_cached (env env2 : Env) (st : ConfigState) :
    Read env2 (Read env st).2 = ((Read env st).1, (Read env st).2) := by
  by_cases hset : st.set = true
  · have h1 : Read env st = (st.configuration, st) := by
      unfold Read; simp [hset]
    rw [h1]
    unfold Read; simp [hset]
  · have h1 : (Read env st).2 = ⟨(Read env st).1, true⟩ := by
      unfold Read; simp [hset]
    rw [h1]
    unfold Read; simp

theorem userConfigFile_congr (env env2 : Env) (h1 : env2.Getenv = env.Getenv)
    (h2 : env2.globalConfigDir = env.globalConfigDir) :
    userConfigFile env2 = userConfigFile env := by
  unfold userConfigFile config.Path
  simp [h1, h2]

theorem openConfigFile_withConfigFile (env : Env) (path file : GoPath)
    (content : Option Settings) (h : env.fileAt path ≠ some file) :
    openConfigFile (withConfigFile env file content) path = openConfigFile env path := by
  have hA : (withConfigFile env file content).fileAt path = env.fileAt path := rfl
  unfold openConfigFile
  rw [hA]
  cases hq : env.fileAt path with
  | none => rfl
  | some q =>
    have hne : q ≠ file := by
      intro heq
      apply h
      rw [hq, heq]
    simp [withConfigFile, hne]

theorem Read_nonAnnexFields_congr (env env2 : Env) (st : ConfigState)
    (h1 : env2.Getenv = env.Getenv) (h2 : env2.globalConfigDir = env.globalConfigDir)
    (h3 : env2.castToString = env.castToString) (h4 : env2.castToInt = env.castToInt)
    (h5 : openConfigFile env2 (userConfigFile env) = openConfigFile env (userConfigFile env)) :
    nonAnnexFields (Read env2 st).1 = nonAnnexFields (Read env st).1 := by
  have hu := userConfigFile_congr env env2 h1 h2
  by_cases hset : st.set = true
  · unfold Read; simp [hset]
  · unfold Read
    simp only [hset, if_false, nonAnnexFields, hu, Viper.MergeInConfig, Viper.SetConfigFile, h5,
      Viper.GetString, Viper.GetInt, Viper.Get, h3, h4]
    cases openConfigFile env (userConfigFile env) <;> rfl

theorem findreporootFuel_congr (env env2 : Env) (h1 : env2.Getwd = env.Getwd)
    (h2 : env2.Stat = env.Stat) :
    ∀ (fuel : Nat) (path : GoPath),
      findreporootFuel env2 fuel path = findreporootFuel env fuel path := by
  intro fuel
  induction fuel with
  | zero => intro path; rfl
  | succ n ih =>
    intro path
    unfold findreporootFuel
    simp only [filepath.Abs, pathExists, h1, h2, ih]

theorem findreporoot_congr (env env2 : Env) (h1 : env2.Getwd = env.Getwd)
    (h2 : env2.Stat = env.Stat) (path : GoPath) :
    findreporoot env2 path = findreporoot env path := by
  unfold findreporoot findreporootDepth
  simp only [filepath.Abs, h1, findreporootFuel_congr env env2 h1 h2]

/-! ## The statements -/

/-- C1: `isValidRepoPath s` is true exactly when `s` contains at least one
`'/'`; a path with no separator is rejected, the empty string among them. -/
theorem C1_isValidRepoPath_iff_separator (s : String) :
    (isValidRepoPath s = true ↔ 1 ≤ s.data.count '/') ∧
    (isValidRepoPath s = false ↔ s.data.count '/' = 0) ∧
    isValidRepoPath "" = false := by
  have h := isValidRepoPath_iff_mem s
  have hc : 1 ≤ s.data.count '/' ↔ '/' ∈ s.data := by
    rw [Nat.succ_le_iff, List.count_pos_iff]
  refine ⟨h.trans hc.symm, ?_, by decide⟩
  rw [← Bool.not_eq_true, h, List.count_eq_zero]

/-- C8, as stated, fails: `isValidRepoPath` accepts `"/"`, `"alice/"`,
`"/example"` and `"alice/data/raw"`, none of which is an owner name, one
separator and a repository name. -/
theorem C8_counterexample_accepts_undocumented :
    (isValidRepoPath "/" = true ∧ isDocumentedRepoPath "/" = false) ∧
    (isValidRepoPath "alice/" = true ∧ isDocumentedRepoPath "alice/" = false) ∧
    (isValidRepoPath "/example" = true ∧ isDocumentedRepoPath "/example" = false) ∧
    (isValidRepoPath "alice/data/raw" = true ∧ isDocumentedRepoPath "alice/data/raw" = false) := by
  decide

/-- C8 (amended): every path accepted by `isValidRepoPath` consists of a part
without separator, a `'/'`, and a rest; either part may be empty and the rest
may contain further separators. -/
theorem C8_accepted_path_has_separator (s : String) (h : isValidRepoPath s = true) :
    ∃ owner rest : List Char, s.data = owner ++ '/' :: rest ∧ '/' ∉ owner := by
  have hm := (isValidRepoPath_iff_mem s).mp h
  generalize s.data = l at hm
  induction l with
  | nil => cases hm
  | cons c cs ih =>
    by_cases hc : c = '/'
    · exact ⟨[], cs, by simp [hc], by simp⟩
    · have hcs : '/' ∈ cs := by
        rcases List.mem_cons.mp hm with h1 | h1
        · exact absurd h1.symm hc
        · exact h1
      obtain ⟨owner, rest, he, hn⟩ := ih hcs
      refine ⟨c :: owner, rest, by simp [he], ?_⟩
      intro hmem
      rcases List.mem_cons.mp hmem with h1 | h1
      · exact hc h1.symm
      · exact hn h1

/-- C8 (amended) at the path `"alice/data/raw"`. -/
theorem C8_accepted_path_has_separator_witness :
    isValidRepoPath "alice/data/raw" = true ∧
    ∃ owner rest : List Char, "alice/data/raw".data = owner ++ '/' :: rest ∧ '/' ∉ owner :=
  ⟨by decide, C8_accepted_path_has_separator "alice/data/raw" (by decide)⟩

/-- C3: once `Read` has returned a configuration, a later `Read` returns the
same configuration and leaves the package state as it is, in whatever
environment the later call runs. -/
theorem C3_Read_cached (env later : Env) (st : ConfigState) :
    (Read later (Read env st).2).1 = (Read env st).1 ∧
    (Read later (Read env st).2).2 = (Read env st).2 ∧
    (Read env st).2.set = true ∧
    (Read env st).2.configuration = (Read env st).1 := by
  have h := Read_cached env later st
  refine ⟨by rw [h], by rw [h], ?_, ?_⟩
  · by_cases hset : st.set = true
    · unfold Read; simp [hset]
    · unfold Read; simp [hset]
  · by_cases hset : st.set = true
    · unfold Read; simp [hset]
    · unfold Read; simp [hset]

/-- C4: `Path(false)` returns the value of `GIN_CONFIG_DIR` and a nil error
when the variable is set to a non-empty string, and the platform directory
and a nil error otherwise; `Path(true)` returns the same path and a nil error
when `os.MkdirAll` succeeds on it, and the empty string with an error when it
fails. -/
theorem C4_Path (env : Env) :
    (env.Getenv "GIN_CONFIG_DIR" ≠ "" →
      config.Path env false = (env.Getenv "GIN_CONFIG_DIR", none)) ∧
    (env.Getenv "GIN_CONFIG_DIR" = "" →
      config.Path env false = (env.globalConfigDir, none)) ∧
    (env.MkdirAll (config.Path env false).1 = none →
      config.Path env true = config.Path env false) ∧
    (env.MkdirAll (config.Path env false).1 ≠ none →
      (config.Path env true).1 = "" ∧ (config.Path env true).2 ≠ none) := by
  refine ⟨?_, ?_, ?_, ?_⟩
  · intro h; simp [config.Path, h]
  · intro h; simp [config.Path, h]
  · intro h
    simp only [config.Path, if_false, Bool.false_eq_true] at h ⊢
    simp [h]
  · intro h
    simp only [config.Path, if_false, Bool.false_eq_true] at h ⊢
    cases hm : env.MkdirAll (if env.Getenv "GIN_CONFIG_DIR" = "" then env.globalConfigDir
        else env.Getenv "GIN_CONFIG_DIR") with
    | none => exact absurd hm h
    | some e => simp

/-- C4 in four concrete environments: variable set, variable not set,
directory created, directory not creatable. -/
theorem C4_Path_witness :
    (Sample.readOnlyEnv.Getenv "GIN_CONFIG_DIR" ≠ "" ∧
      config.Path Sample.readOnlyEnv false = ("/srv/gin", none)) ∧
    (Sample.homeEnv.Getenv "GIN_CONFIG_DIR" = "" ∧
      config.Path Sample.homeEnv false = ("/home/al/.config/g-node/gin", none)) ∧
    (Sample.homeEnv.MkdirAll (config.Path Sample.homeEnv false).1 = none ∧
      config.Path Sample.homeEnv true = ("/home/al/.config/g-node/gin", none)) ∧
    (Sample.readOnlyEnv.MkdirAll (config.Path Sample.readOnlyEnv false).1 ≠ none ∧
      (config.Path Sample.readOnlyEnv true).1 = "" ∧ (config.Path Sample.readOnlyEnv true).2 ≠ none) :=
  ⟨⟨by decide, (C4_Path Sample.readOnlyEnv).1 (by decide)⟩,
   ⟨by decide, (C4_Path Sample.homeEnv).2.1 (by decide)⟩,
   ⟨by decide, (C4_Path Sample.homeEnv).2.2.1 (by decide)⟩,
   ⟨by decide, (C4_Path Sample.readOnlyEnv).2.2.2 (by decide)⟩⟩

/-- C7, as stated, fails when the repository root is also the configuration
directory: with `GIN_CONFIG_DIR=/repo` and the repository at `/repo`, the file
`/repo/config.yml` is the user configuration file as well, and its content
sets `Bin.Git`.  The same happens with `GIN_CONFIG_DIR=.` and `/repo` as the
working directory, where the user configuration path is the relative
`config.yml`. -/
theorem C7_counterexample_shared_directory :
    (findreporoot Sample.sharedDirEnv (filepath.ofString ".") = .ok ⟨true, ["repo"]⟩ ∧
      repoConfigFileOpened Sample.sharedDirEnv ⟨true, ["repo"]⟩ =
        some ⟨true, ["repo", "config.yml"]⟩ ∧
      userConfigFileOpened Sample.sharedDirEnv = some ⟨true, ["repo", "config.yml"]⟩ ∧
      (Read (withConfigFile Sample.sharedDirEnv ⟨true, ["repo", "config.yml"]⟩
          (some Sample.otherGit)) ConfigState.init).1.Bin.Git = "/opt/git/bin/git" ∧
      (Read (withConfigFile Sample.sharedDirEnv ⟨true, ["repo", "config.yml"]⟩
          none) ConfigState.init).1.Bin.Git = "git" ∧
      nonAnnexFields (Read (withConfigFile Sample.sharedDirEnv ⟨true, ["repo", "config.yml"]⟩
          (some Sample.otherGit)) ConfigState.init).1 ≠
        nonAnnexFields (Read (withConfigFile Sample.sharedDirEnv ⟨true, ["repo", "config.yml"]⟩
          none) ConfigState.init).1) ∧
    (findreporoot Sample.dotDirEnv (filepath.ofString ".") = .ok ⟨true, ["repo"]⟩ ∧
      repoConfigFileOpened Sample.dotDirEnv ⟨true, ["repo"]⟩ =
        some ⟨true, ["repo", "config.yml"]⟩ ∧
      userConfigFile Sample.dotDirEnv = ⟨false, ["config.yml"]⟩ ∧
      userConfigFileOpened Sample.dotDirEnv = some ⟨true, ["repo", "config.yml"]⟩ ∧
      (Read (withConfigFile Sample.dotDirEnv ⟨true, ["repo", "config.yml"]⟩
          (some Sample.otherGit)) ConfigState.init).1.Bin.Git = "/opt/git/bin/git" ∧
      (Read (withConfigFile Sample.dotDirEnv ⟨true, ["repo", "config.yml"]⟩
          none) ConfigState.init).1.Bin.Git = "git") := by
  decide

/-- C7 (amended): when the configuration file in the repository root is not
the same file as the user configuration file (the file that the path
`<config dir>/config.yml` leads to, a relative path being taken from the
working directory), then for every content of it the fields `Bin.Git`,
`Bin.GitAnnex`, `Bin.SSH`, `GinHost`, `GitHost`, `GitUser` and `GitHostKey`
returned by `Read` are the ones `Read` returns when that file does not
exist. -/
theorem C7_repo_config_frame (env : Env) (st : ConfigState) (reporoot file : GoPath)
    (content : Settings)
    (hroot : findreporoot env (filepath.ofString ".") = .ok reporoot)
    (hfile : repoConfigFileOpened env reporoot = some file)
    (hdistinct : userConfigFileOpened env ≠ repoConfigFileOpened env reporoot) :
    findreporoot (withConfigFile env file (some content)) (filepath.ofString ".") =
      .ok reporoot ∧
    repoConfigFileOpened (withConfigFile env file (some content)) reporoot = some file ∧
    nonAnnexFields (Read (withConfigFile env file (some content)) st).1 =
      nonAnnexFields (Read (withConfigFile env file none) st).1 := by
  refine ⟨?_, hfile, ?_⟩
  · rw [findreporoot_congr env (withConfigFile env file (some content)) rfl rfl]
    exact hroot
  have hd : env.fileAt (userConfigFile env) ≠ some file := by
    rw [← hfile]
    exact hdistinct
  have h1 : ∀ c, nonAnnexFields (Read (withConfigFile env file c) st).1 =
      nonAnnexFields (Read env st).1 := by
    intro c
    exact Read_nonAnnexFields_congr env (withConfigFile env file c) st
      rfl rfl rfl rfl (openConfigFile_withConfigFile env _ _ c hd)
  rw [h1, h1]

/-- C7 (amended) for a repository at `/home/al/proj` whose configuration file
sets the annex threshold, the annex excludes and also `bin.git`: the annex
settings are taken, the binary is not. -/
theorem C7_repo_config_frame_witness :
    (findreporoot Sample.homeEnv (filepath.ofString ".") = .ok ⟨true, ["home", "al", "proj"]⟩ ∧
     repoConfigFileOpened Sample.homeEnv ⟨true, ["home", "al", "proj"]⟩ =
       some ⟨true, ["home", "al", "proj", "config.yml"]⟩ ∧
     userConfigFileOpened Sample.homeEnv ≠
       repoConfigFileOpened Sample.homeEnv ⟨true, ["home", "al", "proj"]⟩) ∧
    (findreporoot (withConfigFile Sample.homeEnv ⟨true, ["home", "al", "proj", "config.yml"]⟩
        (some Sample.annexSettings)) (filepath.ofString ".") = .ok ⟨true, ["home", "al", "proj"]⟩ ∧
     repoConfigFileOpened (withConfigFile Sample.homeEnv
        ⟨true, ["home", "al", "proj", "config.yml"]⟩ (some Sample.annexSettings))
        ⟨true, ["home", "al", "proj"]⟩ = some ⟨true, ["home", "al", "proj", "config.yml"]⟩ ∧
     nonAnnexFields (Read (withConfigFile Sample.homeEnv
        ⟨true, ["home", "al", "proj", "config.yml"]⟩ (some Sample.annexSettings))
        ConfigState.init).1 =
      nonAnnexFields (Read (withConfigFile Sample.homeEnv
        ⟨true, ["home", "al", "proj", "config.yml"]⟩ none) ConfigState.init).1) ∧
    (Read (withConfigFile Sample.homeEnv ⟨true, ["home", "al", "proj", "config.yml"]⟩
        (some Sample.annexSettings)) ConfigState.init).1.Annex = ⟨["*.md", "*.py"], "50M"⟩ ∧
    (Read (withConfigFile Sample.homeEnv ⟨true, ["home", "al", "proj", "config.yml"]⟩
        none) ConfigState.init).1.Annex = ⟨[], "10M"⟩ :=
  ⟨⟨by decide, by decide, by decide⟩,
   C7_repo_config_frame Sample.homeEnv ConfigState.init ⟨true, ["home", "al", "proj"]⟩
     ⟨true, ["home", "al", "proj", "config.yml"]⟩ Sample.annexSettings
     (by decide) (by decide) (by decide),
   by decide, by decide⟩

/-- C10, as stated, fails in two ways.  When `os.Getwd` fails, `findreporoot`
on a relative path returns the error of `filepath.Abs`: neither a directory
nor "Not a repository".  When `os.Stat` of the `.git` path fails with an error
other than "does not exist" (here the starting path is a regular file),
`findreporoot` returns the starting path although no directory contains a
`.git` entry. -/
theorem C10_counterexample_abs_error_and_stat_error :
    (findreporoot Sample.removedCwdEnv (filepath.ofString ".") =
        .error "getwd: no such file or directory" ∧
      findreporoot Sample.removedCwdEnv (filepath.ofString ".") ≠ .error "Not a repository") ∧
    (findreporoot Sample.plainFileEnv (filepath.ofString "/home/al/notes.txt") =
        .ok ⟨true, ["home", "al", "notes.txt"]⟩ ∧
      nearestRepoDir Sample.plainFileEnv ⟨true, ["home", "al", "notes.txt"]⟩ = none ∧
      containsGit Sample.plainFileEnv ⟨true, ["home", "al", "notes.txt"]⟩ = false) := by
  decide

/-- C10 (amended): `findreporoot` ends after at most one call for each
segment of the absolute path and one for the root.  When `filepath.Abs` fails
it returns that error.  Otherwise, when `os.Stat` answers "found" or "does not
exist" for the `.git` entry of the starting directory and of each ancestor,
it returns the nearest of these directories that contains a `.git` entry, and
the error "Not a repository" exactly when none of them contains one. -/
theorem C10_findreporoot_nearest (env : Env) (path : GoPath) :
    (∀ fuel, findreporootDepth env path ≤ fuel →
      findreporootFuel env fuel path = some (findreporoot env path)) ∧
    (∀ e, filepath.Abs env path = .error e → findreporoot env path = .error e) ∧
    (∀ p, filepath.Abs env path = .ok p →
      (∀ d ∈ ancestors p, env.Stat (gitEntry d) ≠ .otherError) →
        (findreporoot env path =
          match nearestRepoDir env p with
          | some d => .ok d
          | none => .error "Not a repository") ∧
        (findreporoot env path = .error "Not a repository" ↔
          ∀ d ∈ ancestors p, containsGit env d = false)) := by
  refine ⟨fun fuel h => (findreporootFuel_eq env path fuel h).1, ?_, ?_⟩
  · intro e he
    have h := (findreporootFuel_eq env path _ (le_refl _)).2
    rw [he] at h
    exact h
  · intro p hp hstat
    have h := (findreporootFuel_eq env path _ (le_refl _)).2
    rw [hp] at h
    simp only [] at h
    rw [searchUp_eq_nearest env p hstat] at h
    refine ⟨h, ?_⟩
    rw [h]
    unfold nearestRepoDir
    cases hf : (ancestors p).find? (containsGit env) with
    | none =>
      simp only [true_iff]
      intro d hd
      have := List.find?_eq_none.mp hf d hd
      simpa using this
    | some d =>
      simp only [false_iff, reduceCtorEq]
      intro hall
      have hmem := List.mem_of_find?_eq_some hf
      have hsat := List.find?_some hf
      rw [hall d hmem] at hsat
      cases hsat

/-- C10 (amended) from `/home/al/proj/data`, two levels below nothing and one
level below the repository `/home/al/proj`: four calls suffice and the
repository is found. -/
theorem C10_findreporoot_nearest_witness :
    (findreporootDepth Sample.homeEnv (filepath.ofString ".") ≤ 5 ∧
      findreporootFuel Sample.homeEnv 5 (filepath.ofString ".") =
        some (findreporoot Sample.homeEnv (filepath.ofString "."))) ∧
    (filepath.Abs Sample.removedCwdEnv (filepath.ofString ".") =
        .error "getwd: no such file or directory" ∧
      findreporoot Sample.removedCwdEnv (filepath.ofString ".") =
        .error "getwd: no such file or directory") ∧
    (filepath.Abs Sample.homeEnv (filepath.ofString ".") = .ok ⟨true, ["home", "al", "proj", "data"]⟩ ∧
      (∀ d ∈ ancestors ⟨true, ["home", "al", "proj", "data"]⟩,
        Sample.homeEnv.Stat (gitEntry d) ≠ .otherError) ∧
      nearestRepoDir Sample.homeEnv ⟨true, ["home", "al", "proj", "data"]⟩ =
        some ⟨true, ["home", "al", "proj"]⟩ ∧
      findreporoot Sample.homeEnv (filepath.ofString ".") =
        (match nearestRepoDir Sample.homeEnv ⟨true, ["home", "al", "proj", "data"]⟩ with
          | some d => .ok d
          | none => .error "Not a repository")) :=
  ⟨⟨by decide, (C10_findreporoot_nearest Sample.homeEnv (filepath.ofString ".")).1 5 (by decide)⟩,
   ⟨by decide, (C10_findreporoot_nearest Sample.removedCwdEnv (filepath.ofString ".")).2.1 _ (by decide)⟩,
   ⟨by decide, by decide, by decide,
    ((C10_findreporoot_nearest Sample.homeEnv (filepath.ofString ".")).2.2
      ⟨true, ["home", "al", "proj", "data"]⟩ (by decide) (by decide)).1⟩⟩

/-- C2, as stated, fails: `requirelogin` runs before the path is validated,
and for a user without a session it ends the process; `getRepo` on the path
`"norepo"` then ends with the message of `requirelogin`, not with the
"Invalid repository path" message. -/
theorem C2_counterexample_login_first :
    '/' ∉ "norepo".data ∧
    (getRepo Sample.loggedOutWorld ["norepo"]).outcome = .died "This command requires login." ∧
    (getRepo Sample.loggedOutWorld ["norepo"]).outcome ≠ .died (invalidRepoPathMessage "norepo") ∧
    (getRepo Sample.loggedOutWorld ["norepo"]).trace =
      [Event.configRead, Event.newClient "https://web.gin.g-node.org:443", Event.requirelogin false] := by
  decide

/-- C2 (amended): for a repository argument without `'/'`, `getRepo` reads the
configuration, makes the client and calls `requirelogin`, and nothing else:
no channel is made, `CloneRepo` is not started and `git.CommitIfNew` is not
called.  When `requirelogin` returns, `getRepo` ends with the "Invalid
repository path" message; when `requirelogin` ends the process, that is how
`getRepo` ends. -/
theorem C2_getRepo_invalid_path (w : World) (repostr : String) (rest : List String)
    (hsep : '/' ∉ repostr.data) :
    (getRepo w (repostr :: rest)).trace =
      [Event.configRead, Event.newClient (Read w.env w.configState).1.GinHost,
        Event.requirelogin (!w.jsonout)] ∧
    Event.makeChan ∉ (getRepo w (repostr :: rest)).trace ∧
    (∀ h u r, Event.goCloneRepo h u r ∉ (getRepo w (repostr :: rest)).trace) ∧
    (∀ r, Event.CommitIfNew r ∉ (getRepo w (repostr :: rest)).trace) ∧
    (w.requirelogin (Read w.env w.configState).1.GinHost (!w.jsonout) = none →
      (getRepo w (repostr :: rest)).outcome = .died (invalidRepoPathMessage repostr)) ∧
    (∀ msg, w.requirelogin (Read w.env w.configState).1.GinHost (!w.jsonout) = some msg →
      (getRepo w (repostr :: rest)).outcome = .died msg) := by
  have hv : isValidRepoPath repostr = false := by
    rw [← Bool.not_eq_true, isValidRepoPath_iff_mem]
    exact hsep
  have ht : (getRepo w (repostr :: rest)).trace =
      [Event.configRead, Event.newClient (Read w.env w.configState).1.GinHost,
        Event.requirelogin (!w.jsonout)] := by
    unfold getRepo
    cases hl : w.requirelogin (Read w.env w.configState).1.GinHost (!w.jsonout) <;> simp [hl, hv]
  refine ⟨ht, ?_, ?_, ?_, ?_, ?_⟩
  · rw [ht]; simp
  · intro h u r; rw [ht]; simp
  · intro r; rw [ht]; simp
  · intro hl
    unfold getRepo
    simp [hl, hv]
  · intro msg hl
    unfold getRepo
    simp [hl]

/-- C2 (amended) for a logged in user asking for `"norepo"`. -/
theorem C2_getRepo_invalid_path_witness :
    '/' ∉ "norepo".data ∧
    Sample.loggedInWorld.requirelogin
      (Read Sample.loggedInWorld.env Sample.loggedInWorld.configState).1.GinHost
      (!Sample.loggedInWorld.jsonout) = none ∧
    (getRepo Sample.loggedInWorld ["norepo"]).outcome = .died (invalidRepoPathMessage "norepo") :=
  ⟨by decide, by decide,
   (C2_getRepo_invalid_path Sample.loggedInWorld "norepo" [] (by decide)).2.2.2.2.1 (by decide)⟩

/-- C6, as stated, fails: `requirelogin` runs before `git.IsRepo` is asked,
and for a user without a session it ends the process; `upload` outside a
repository then ends with the message of `requirelogin`, not with the "must
be run from inside a gin repository" message. -/
theorem C6_counterexample_login_first :
    Sample.loggedOutWorld.IsRepo = false ∧
    (upload Sample.loggedOutWorld ["data.csv"]).outcome = .died "This command requires login." ∧
    (upload Sample.loggedOutWorld ["data.csv"]).outcome ≠ .died notInRepoMessage := by
  decide

/-- C6 (amended): when `git.IsRepo()` is false, `upload` reads the
configuration, makes the client and calls `requirelogin`, and nothing else:
`commit` is not run, no channel is made and `Upload` is not started.  When
`requirelogin` returns, `upload` ends with the "must be run from inside a gin
repository" message; when `requirelogin` ends the process, that is how
`upload` ends. -/
theorem C6_upload_outside_repo (w : World) (args : List String) (hrepo : w.IsRepo = false) :
    (upload w args).trace =
      [Event.configRead, Event.newClient (Read w.env w.configState).1.GinHost,
        Event.requirelogin (!w.jsonout)] ∧
    (∀ ps, Event.commit ps ∉ (upload w args).trace) ∧
    Event.makeChan ∉ (upload w args).trace ∧
    (∀ h u ps, Event.goUpload h u ps ∉ (upload w args).trace) ∧
    (w.requirelogin (Read w.env w.configState).1.GinHost (!w.jsonout) = none →
      (upload w args).outcome = .died notInRepoMessage) ∧
    (∀ msg, w.requirelogin (Read w.env w.configState).1.GinHost (!w.jsonout) = some msg →
      (upload w args).outcome = .died msg) := by
  have ht : (upload w args).trace =
      [Event.configRead, Event.newClient (Read w.env w.configState).1.GinHost,
        Event.requirelogin (!w.jsonout)] := by
    unfold upload
    cases hl : w.requirelogin (Read w.env w.configState).1.GinHost (!w.jsonout) <;> simp [hl, hrepo]
  refine ⟨ht, ?_, ?_, ?_, ?_, ?_⟩
  · intro ps; rw [ht]; simp
  · rw [ht]; simp
  · intro h u ps; rw [ht]; simp
  · intro hl
    unfold upload
    simp [hl, hrepo]
  · intro msg hl
    unfold upload
    simp [hl]

/-- C6 (amended) for a logged in user outside a repository. -/
theorem C6_upload_outside_repo_witness :
    Sample.outsideRepoWorld.IsRepo = false ∧
    Sample.outsideRepoWorld.requirelogin
      (Read Sample.outsideRepoWorld.env Sample.outsideRepoWorld.configState).1.GinHost
      (!Sample.outsideRepoWorld.jsonout) = none ∧
    (upload Sample.outsideRepoWorld ["data.csv"]).outcome = .died notInRepoMessage :=
  ⟨by decide, by decide,
   (C6_upload_outside_repo Sample.outsideRepoWorld ["data.csv"] (by decide)).2.2.2.2.1 (by decide)⟩

/-- C5: what `upload` hands to `Upload` is the argument list itself.  In every
run the commit and Upload steps that occur are an initial part of: `commit` on
the arguments when there are any, then the start of `Upload` on the same
arguments; with no arguments there is no commit step.  When `requirelogin`
returns, the directory is a repository and the commit step (if any) returns,
`Upload` is started, after exactly one `commit` on the same paths when the
list is non-empty. -/
theorem C5_upload_paths (w : World) (args : List String) :
    ((upload w args).trace.filter Event.isCommitOrUpload <+:
      (if args = [] then [] else [Event.commit args]) ++
        [Event.goUpload (Read w.env w.configState).1.GitHost
          (Read w.env w.configState).1.GitUser args]) ∧
    (∀ h u ps, Event.goUpload h u ps ∈ (upload w args).trace → ps = args) ∧
    (∀ ps, Event.commit ps ∈ (upload w args).trace → ps = args ∧ args ≠ []) ∧
    (w.requirelogin (Read w.env w.configState).1.GinHost (!w.jsonout) = none →
      w.IsRepo = true → (args = [] ∨ w.commit args = none) →
      (upload w args).trace =
        [Event.configRead, Event.newClient (Read w.env w.configState).1.GinHost,
          Event.requirelogin (!w.jsonout)] ++
        (if args = [] then [] else [Event.commit args]) ++
        [Event.makeChan,
          Event.goUpload (Read w.env w.configState).1.GitHost
            (Read w.env w.configState).1.GitUser args,
          Event.formatOutput w.jsonout]) := by
  have hpre : (upload w args).trace.filter Event.isCommitOrUpload <+:
      (if args = [] then [] else [Event.commit args]) ++
        [Event.goUpload (Read w.env w.configState).1.GitHost
          (Read w.env w.configState).1.GitUser args] := by
    unfold upload
    cases hl : w.requirelogin (Read w.env w.configState).1.GinHost (!w.jsonout) with
    | some msg => simp [hl, Event.isCommitOrUpload]
    | none =>
      cases hr : w.IsRepo with
      | false => simp [hl, hr, Event.isCommitOrUpload]
      | true =>
        cases args with
        | nil =>
          cases hf : w.formatOutput <;> simp [hl, hr, hf, Event.isCommitOrUpload, List.filter]
        | cons a as =>
          cases hc : w.commit (a :: as) with
          | some msg =>
            simp [hl, hr, hc, Event.isCommitOrUpload, List.filter, List.prefix_cons_inj]
          | none =>
            cases hf : w.formatOutput <;>
              simp [hl, hr, hc, hf, Event.isCommitOrUpload, List.filter]
  refine ⟨hpre, ?_, ?_, ?_⟩
  · intro h u ps hmem
    have hin := hpre.subset (List.mem_filter.mpr ⟨hmem, rfl⟩)
    by_cases ha : args = []
    · simp [ha] at hin
      rw [ha]
      exact hin.2.2
    · simp [ha] at hin
      exact hin.2.2
  · intro ps hmem
    have hin := hpre.subset (List.mem_filter.mpr ⟨hmem, rfl⟩)
    by_cases ha : args = []
    · simp [ha] at hin
    · simp [ha] at hin
      exact ⟨hin, ha⟩
  · intro hl hr hc
    unfold upload
    cases args with
    | nil => cases hf : w.formatOutput <;> simp [hl, hr, hf]
    | cons a as =>
      have hc2 : w.commit (a :: as) = none := by
        rcases hc with h | h
        · cases h
        · exact h
      cases hf : w.formatOutput <;> simp [hl, hr, hc2, hf]

/-- C5 for a logged in user inside a repository, with two paths and with
none. -/
theorem C5_upload_paths_witness :
    (Sample.loggedInWorld.requirelogin
        (Read Sample.loggedInWorld.env Sample.loggedInWorld.configState).1.GinHost
        (!Sample.loggedInWorld.jsonout) = none ∧
      Sample.loggedInWorld.IsRepo = true ∧
      Sample.loggedInWorld.commit ["b.dat", "a.dat"] = none) ∧
    (upload Sample.loggedInWorld ["b.dat", "a.dat"]).trace =
      [Event.configRead, Event.newClient "https://web.gin.g-node.org:443", Event.requirelogin true,
        Event.commit ["b.dat", "a.dat"], Event.makeChan,
        Event.goUpload "gin.g-node.org:22" "git" ["b.dat", "a.dat"], Event.formatOutput false] ∧
    (upload Sample.loggedInWorld []).trace =
      [Event.configRead, Event.newClient "https://web.gin.g-node.org:443", Event.requirelogin true,
        Event.makeChan, Event.goUpload "gin.g-node.org:22" "git" [], Event.formatOutput false] :=
  ⟨⟨by decide, by decide, by decide⟩,
   (C5_upload_paths Sample.loggedInWorld ["b.dat", "a.dat"]).2.2.2 (by decide) (by decide)
     (Or.inr (by decide)),
   (C5_upload_paths Sample.loggedInWorld []).2.2.2 (by decide) (by decide) (Or.inl rfl)⟩

/-- C9: when the request fails (empty base URL, unreachable host, status 404
or another status outside 200..299), `RequestAccount` returns the zero
account and an error; whenever it returns an error, the account is the zero
account; and a failing request never gives a nil error. -/
theorem C9_RequestAccount_failure (cl : Client) (login : String) :
    (requestFails cl login = true →
      (RequestAccount cl login).1 = Account.zero ∧ (RequestAccount cl login).2 ≠ none) ∧
    ((RequestAccount cl login).2 ≠ none → (RequestAccount cl login).1 = Account.zero) ∧
    ((RequestAccount cl login).2 = none → requestFails cl login = false) := by
  unfold RequestAccount requestFails
  by_cases hb : cl.baseURL = ""
  · simp [hb]
  · cases hr : cl.httpGet (cl.baseURL ++ "/api/accounts/" ++ login) with
    | unreachable => simp [hb, hr]
    | response status body =>
      by_cases h404 : status = 404
      · simp [hb, hr, h404]
      · by_cases hs : status < 200 ∨ 300 ≤ status
        · simp [hb, hr, h404, hs]
        · cases hd : cl.decodeAccount body with
          | none => simp [hb, hr, h404, hs, hd]
          | some acc =>
            simp only [hb, hr, h404, hs, hd, if_false]
            simp
            exact hb

/-- C9 on the test server of `auth_test.go` for the login "I don't exist",
and on a client without base URL. -/
theorem C9_RequestAccount_failure_witness :
    (requestFails Sample.testServer "I don't exist" = true ∧
      RequestAccount Sample.testServer "I don't exist" = (Account.zero, some .NotFound)) ∧
    (requestFails { Sample.testServer with baseURL := "" } "server is broken" = true ∧
      (RequestAccount { Sample.testServer with baseURL := "" } "server is broken").1 = Account.zero) ∧
    RequestAccount Sample.testServer "alice" =
      (⟨"alice_test_uuid", "alice", none, "Alice", none, "Goodwill", none,
        "2016-11-10T12:26:04.57208Z", "2016-11-10T12:26:04.57208+01:00"⟩, none) :=
  ⟨⟨by decide, Prod.ext
      ((C9_RequestAccount_failure Sample.testServer "I don't exist").1 (by decide)).1 (by decide)⟩,
   ⟨by decide,
    ((C9_RequestAccount_failure { Sample.testServer with baseURL := "" } "server is broken").1
      (by decide)).1⟩,
   by decide⟩

end GinCli
